import Mathlib

/-!
Verification of the qBittorrent WebUI API client (src/index.ts) against its
specification. The client is a thin HTTP marshalling layer: a generic
dispatcher (`callMethod`) that builds a URL from a namespace/action pair,
attaches a session cookie, sends a request and parses the response as
JSON-or-raw-text, plus ~60 endpoint methods that shape parameters into form
bodies. We embed the request-building and response-handling logic as pure
Lean functions: the network response is an explicit input, fallible paths
return `Except`, and the JavaScript builtins the code calls (`String.trim`,
`String.startsWith`, `Array.includes`, `JSON.parse`, WHATWG `URL`) are
modelled by explicit Lean functions faithful to their semantics on the
inputs this client produces.
-/

/-- Model of a parsed JSON value, the result type of the JavaScript builtin
JSON.parse when it succeeds. -/
inductive Json where
  | null
  | bool (b : Bool)
  | num (n : Int)
  | str (s : String)
  | arr (xs : List Json)
  | obj (fields : List (String × Json))

/-- Characters removed by the JavaScript builtin String.prototype.trim
(WhiteSpace and LineTerminator code points; the common ones suffice for the
ASCII cookie strings this client handles). -/
def isJsWhitespace (c : Char) : Bool :=
  c = ' ' || c = '\t' || c = '\n' || c = '\r' ||
  c = '\x0b' || c = '\x0c' || c = ' ' || c = '﻿'

/-- Model of the JavaScript builtin String.prototype.trim: drop leading and
trailing whitespace characters. -/
def jsTrim (s : String) : String :=
  String.mk (((s.data.dropWhile isJsWhitespace).reverse.dropWhile isJsWhitespace).reverse)

/-- Model of the JavaScript builtin String.prototype.startsWith: the search
string occurs at the start of the receiver. -/
def jsStarts (s pat : String) : Bool :=
  pat.data.isPrefixOf s.data

/-- HTTP verb used by the dispatcher; the source allows only GET and POST
(`CallMethodOptions.method`). -/
inductive HttpMethod where
  | GET
  | POST
  deriving DecidableEq

/-- One part of a multipart `FormData` body: a plain text field or a binary
blob (bytes as naturals). -/
inductive FormPart where
  | text (s : String)
  | blob (content : List Nat)
  deriving DecidableEq

/-- A request body as passed to fetch: a `URLSearchParams` form body or a
multipart `FormData` body. -/
inductive ReqBody where
  | form (fields : List (String × String))
  | multipart (parts : List (String × FormPart))
  deriving DecidableEq

/-- Semantics of `URLSearchParams.set` and `FormData.set`: if an entry with
the key exists, replace the first one in place and drop the other
occurrences; otherwise append at the end. -/
def setEntry {α : Type} : List (String × α) → String → α → List (String × α)
  | [], k, v => [(k, v)]
  | (k', v') :: rest, k, v =>
    if k' = k then (k, v) :: rest.filter (fun p => p.1 ≠ k)
    else (k', v') :: setEntry rest k v

/-- Semantics of `URLSearchParams.get`: the value of the first entry with
the given key, if any. -/
def getEntry {α : Type} : List (String × α) → String → Option α
  | [], _ => none
  | (k', v) :: rest, k => if k' = k then some v else getEntry rest k

/-- Model of `url.replace(/\/$/, '')` in the constructor: remove a single
trailing slash if present. -/
def stripTrailingSlash (s : String) : String :=
  match s.data.reverse with
  | '/' :: rest => String.mk rest.reverse
  | _ => s

/-- Characters of a URL before its first slash. -/
def untilSlash : List Char → List Char
  | [] => []
  | c :: cs => if c = '/' then [] else c :: untilSlash cs

/-- Splits a URL's characters at the first scheme separator `://`, returning
the scheme part and the remainder. -/
def splitScheme : List Char → Option (List Char × List Char)
  | ':' :: '/' :: '/' :: rest => some ([], rest)
  | [] => none
  | c :: cs =>
    match splitScheme cs with
    | some p => some (c :: p.1, p.2)
    | none => none

/-- Model of the `origin` of a WHATWG URL for the absolute http(s) URLs this
client is configured with: the scheme plus the authority, i.e. everything up
to the first slash after the scheme separator. -/
def urlOrigin (s : String) : String :=
  match splitScheme s.data with
  | some p => String.mk (p.1 ++ ':' :: '/' :: '/' :: untilSlash p.2)
  | none => s

/-- Everything up to and including the last slash of a URL string; the base
directory against which a relative reference is resolved. -/
def urlBaseDir (s : String) : String :=
  String.mk ((s.data.reverse.dropWhile (fun c => c ≠ '/')).reverse)

/-- Model of WHATWG URL resolution `new URL(ref, base).href` for the two
reference shapes the client uses: an absolute-path reference (starting with
a slash) replaces the whole path of the base, and a relative reference is
appended to the base directory. -/
def resolveURL (ref base : String) : String :=
  if jsStarts ref "/" then urlOrigin base ++ ref
  else urlBaseDir base ++ ref

/-- The fixed set of API namespaces (`enum APINames` in the source). -/
inductive APINames where
  | auth
  | app
  | log
  | sync
  | transfer
  | torrents
  | rss
  | search
  deriving DecidableEq

/-- String value of each `APINames` member (each enum member equals its own
name in the source). -/
def APINames.str : APINames → String
  | .auth => "auth"
  | .app => "app"
  | .log => "log"
  | .sync => "sync"
  | .transfer => "transfer"
  | .torrents => "torrents"
  | .rss => "rss"
  | .search => "search"

/-- The client handle state: the normalized base URL and the optional
session credential (`url` and `authCookie` fields of class QBittorrent). -/
structure ClientState where
  url : String
  authCookie : Option String
  deriving DecidableEq

/-- The constructor: `this.url = new URL('/api/v2/', url.replace(/\/$/, '')).href`,
starting with no session credential. -/
def mkClient (url : String := "http://localhost:8080") : ClientState :=
  { url := resolveURL "/api/v2/" (stripTrailingSlash url), authCookie := none }

/-- Options accepted by the dispatcher (`CallMethodOptions`): optional verb,
query entries (a key with its list of values, flattened with the key
repeated), and optional body. -/
structure CallMethodOptions where
  method : Option HttpMethod := none
  query : List (String × List String) := []
  body : Option ReqBody := none

/-- Model of `qs.stringify(query, { arrayFormat: 'repeat' })`: every value of
an array-valued key produces its own `key=value` pair, pairs joined with
ampersands; an absent query stringifies to the empty string. -/
def qsStringify (q : List (String × List String)) : String :=
  String.intercalate "&" (q.flatMap (fun kv => kv.2.map (fun v => kv.1 ++ "=" ++ v)))

/-- Request headers built by `callMethod`: always a Referer equal to the
origin of the configured URL, plus a Cookie header holding the session
credential when one is held and its trimmed value is nonempty. -/
def mkHeaders (st : ClientState) : List (String × String) :=
  [("Referer", urlOrigin st.url)] ++
    (match st.authCookie with
     | some c => if jsTrim c ≠ "" then [("Cookie", c)] else []
     | none => [])

/-- The outbound HTTP request assembled by `callMethod` and handed to fetch. -/
structure RequestDescriptor where
  url : String
  method : HttpMethod
  headers : List (String × String)
  body : Option ReqBody
  deriving DecidableEq

/-- Request-building half of `callMethod`: default the verb to GET, stringify
the query, resolve `apiName/methodName` against the configured base URL,
attach the query string when nonempty, and attach the headers and body. -/
def requestOf (st : ClientState) (apiName : APINames) (methodName : String)
    (options : CallMethodOptions) : RequestDescriptor :=
  let method := options.method.getD .GET
  let query := qsStringify options.query
  let url0 := resolveURL (apiName.str ++ "/" ++ methodName) st.url
  let url := if query ≠ "" then url0 ++ "?" ++ query else url0
  { url := url, method := method, headers := mkHeaders st, body := options.body }

/-- An HTTP response as observed by the client: status, full body text, and
the set-cookie header values (`response.headers.getSetCookie()`). -/
structure HttpResponse where
  status : Nat
  text : String
  setCookies : List String

/-- Error thrown when a request to the qBittorrent API fails (`class
RequestError`): the numeric HTTP status and the raw response text. -/
structure RequestError where
  code : Nat
  message : String
  deriving DecidableEq

/-- Model of `response.ok`: the status lies in the 2xx success range. -/
def responseOk (status : Nat) : Bool :=
  200 ≤ status && status ≤ 299

/-- The body value `callMethod` returns: the JSON.parse result when the text
parses, otherwise the raw text. -/
inductive BodyValue where
  | json (j : Json)
  | raw (s : String)

/-- Response-handling half of `callMethod`, parameterised by the JSON.parse
builtin (`jp` returns `none` exactly when JSON.parse throws): a non-ok status
throws a `RequestError` carrying the status and the body text; otherwise the
body text is JSON-parsed, falling back to the raw text. -/
def handleResponse (jp : String → Option Json) (resp : HttpResponse) :
    Except RequestError (BodyValue × HttpResponse) :=
  if responseOk resp.status then
    match jp resp.text with
    | some j => .ok (.json j, resp)
    | none => .ok (.raw resp.text, resp)
  else .error ⟨resp.status, resp.text⟩

/-- The form body sent by `login`: `new URLSearchParams({ username, password })`. -/
def loginRequestBody (username password : String) : List (String × String) :=
  [("username", username), ("password", password)]

/-- State update performed by `login`: dispatch, and on success set the
credential to the first set-cookie value starting with `SID=` (or unset it
when none matches); a thrown `RequestError` propagates with the state
untouched. -/
def login (st : ClientState) (jp : String → Option Json) (resp : HttpResponse) :
    Except RequestError ClientState :=
  match handleResponse jp resp with
  | .error e => .error e
  | .ok r => .ok { st with
      authCookie := r.2.setCookies.find? (fun c => jsStarts c "SID=") }

/-- State update performed by `logout`: dispatch the logout action; the
held credential is not touched. -/
def logout (st : ClientState) (jp : String → Option Json) (resp : HttpResponse) :
    Except RequestError ClientState :=
  match handleResponse jp resp with
  | .error e => .error e
  | .ok _ => .ok st

/-- The request issued by `getApplicationVersion`: a dispatch to namespace
`app`, action `version`, with no options. -/
def getApplicationVersionRequest (st : ClientState) : RequestDescriptor :=
  requestOf st .app "version" {}

/-- A hash-list argument that may instead be the sentinel `'all'`
(`hashes: string[] | 'all'`). -/
inductive Hashes where
  | list (hs : List String)
  | all
  deriving DecidableEq

/-- The string placed in the `hashes` form field:
`Array.isArray(hashes) ? hashes.join('|') : hashes`. -/
def hashesStr : Hashes → String
  | .list hs => String.intercalate "|" hs
  | .all => "all"

/-- Form body built by `deleteTorrents`. -/
def deleteTorrentsBody (hashes : Hashes) (deleteFiles : Bool) : List (String × String) :=
  [("hashes", hashesStr hashes), ("deleteFiles", toString deleteFiles)]

/-- Form body built by `pauseTorrents`. -/
def pauseTorrentsBody (hashes : List String) : List (String × String) :=
  [("hashes", String.intercalate "|" hashes)]

/-- Form body built by `removeTorrentTags`: the hashes field, plus a `tags`
field set to the comma-joined tag list when one is passed. -/
def removeTorrentTagsBody (hashes : Hashes) (tags : Option (List String)) :
    List (String × String) :=
  let body := [("hashes", hashesStr hashes)]
  match tags with
  | some ts => setEntry body "tags" (String.intercalate "," ts)
  | none => body

/-- Form body built by `setTorrentShareLimit`: the hashes field; then, when
defined, `ratioLimit` is written under the key `ratioLimit`, and, when
defined, `seedingTimeLimit` is also written under the key `ratioLimit`
(mirroring the source exactly, which never writes a `seedingTimeLimit` key). -/
def setTorrentShareLimitBody (hashes : Hashes)
    (ratioLimit seedingTimeLimit : Option Int) : List (String × String) :=
  let body := [("hashes", hashesStr hashes)]
  let body := match ratioLimit with
    | some r => setEntry body "ratioLimit" (toString r)
    | none => body
  let body := match seedingTimeLimit with
    | some t => setEntry body "ratioLimit" (toString t)
    | none => body
  body

/-- C1: a non-2xx response makes the dispatcher throw a RequestError whose
code is the HTTP status and whose message is the raw body text; no such
response is ever returned as a normal value. -/
theorem non2xx_throws_request_error (jp : String → Option Json) (resp : HttpResponse)
    (h : resp.status < 200 ∨ 299 < resp.status) :
    handleResponse jp resp = .error ⟨resp.status, resp.text⟩ ∧
      ∀ v, handleResponse jp resp ≠ .ok v := by
  have hok : responseOk resp.status = false := by
    simp only [responseOk, Bool.and_eq_false_iff, decide_eq_false_iff_not, not_le]
    omega
  constructor
  · simp [handleResponse, hok]
  · intro v
    simp [handleResponse, hok]

/-- Witness for C1 at status 404 with empty body text. -/
theorem non2xx_throws_request_error_witness :
    handleResponse (fun _ => none) ⟨404, "", []⟩ = .error ⟨404, ""⟩ ∧
      ∀ v, handleResponse (fun _ => none) ⟨404, "", []⟩ ≠ .ok v :=
  non2xx_throws_request_error (fun _ => none) ⟨404, "", []⟩ (by decide)

/-- C4: on a 2xx response the dispatcher first attempts a JSON parse of the
body text; when the text is not valid JSON it returns the raw text unchanged
instead of throwing, and when it is valid JSON it returns the parsed value. -/
theorem ok_json_fallback (jp : String → Option Json) (resp : HttpResponse)
    (h : 200 ≤ resp.status ∧ resp.status ≤ 299) :
    (jp resp.text = none →
       handleResponse jp resp = .ok (.raw resp.text, resp)) ∧
    (∀ j, jp resp.text = some j →
       handleResponse jp resp = .ok (.json j, resp)) := by
  have hok : responseOk resp.status = true := by
    simp only [responseOk, Bool.and_eq_true, decide_eq_true_eq]
    omega
  constructor
  · intro hn
    simp [handleResponse, hok, hn]
  · intro j hj
    simp [handleResponse, hok, hj]

/-- Witness for C4: with status 200 and the non-JSON body text `4.6.5`, the
raw text comes back unchanged. -/
theorem ok_json_fallback_witness :
    handleResponse (fun _ => none) ⟨200, "4.6.5", []⟩ = .ok (.raw "4.6.5", ⟨200, "4.6.5", []⟩) :=
  (ok_json_fallback (fun _ => none) ⟨200, "4.6.5", []⟩ (by decide)).1 rfl

/-- Helper: a cookie string starting with `SID=` has a nonempty JS-trimmed
value, since its first character is not whitespace. -/
theorem jsTrim_ne_empty_of_sid (c : String) (h : jsStarts c "SID=" = true) :
    jsTrim c ≠ "" := by
  unfold jsStarts at h
  obtain ⟨t, ht⟩ := List.isPrefixOf_iff_prefix.mp h
  have hdata : c.data = 'S' :: 'I' :: 'D' :: '=' :: t := by
    rw [← ht]; rfl
  have hS : isJsWhitespace 'S' = false := by decide
  unfold jsTrim
  rw [hdata]
  rw [List.dropWhile_cons]
  simp only [hS, Bool.false_eq_true, if_false]
  intro heq
  have h2 : ((('S' :: 'I' :: 'D' :: '=' :: t).reverse.dropWhile isJsWhitespace).reverse :
      List Char) = [] := by
    have := congrArg String.data heq
    simpa using this
  rw [List.reverse_eq_nil_iff, List.dropWhile_eq_nil_iff] at h2
  have hmem : 'S' ∈ ('S' :: 'I' :: 'D' :: '=' :: t).reverse := by simp
  exact absurd (h2 'S' hmem) (by decide)

/-- C2: when the login response carries a set-cookie value starting with
`SID=`, the held credential afterwards equals that full set-cookie string
exactly, every request dispatched from that state carries a Cookie header
with that exact value, and a state whose credential is unset or trims to the
empty string attaches no Cookie header at all. -/
theorem login_sid_cookie_retained (st : ClientState) (jp : String → Option Json)
    (resp : HttpResponse) (c : String)
    (hok : responseOk resp.status = true)
    (hfind : resp.setCookies.find? (fun s => jsStarts s "SID=") = some c) :
    login st jp resp = .ok { st with authCookie := some c } ∧
    ("Cookie", c) ∈ mkHeaders { st with authCookie := some c } ∧
    (∀ st2 : ClientState,
        (st2.authCookie = none ∨ ∃ s, st2.authCookie = some s ∧ jsTrim s = "") →
        ∀ v, ("Cookie", v) ∉ mkHeaders st2) := by
  refine ⟨?_, ?_, ?_⟩
  · unfold login handleResponse
    simp only [hok, if_true]
    cases jp resp.text <;> simp [hfind]
  · have hc : jsStarts c "SID=" = true := by
      have := List.find?_some hfind
      simpa using this
    have hne := jsTrim_ne_empty_of_sid c hc
    simp [mkHeaders, hne]
  · intro st2 hcred v
    rcases hcred with hnone | ⟨s, hs, hts⟩
    · simp [mkHeaders, hnone]
    · simp [mkHeaders, hs, hts]

/-- Witness for C2 at a login response whose set-cookie headers are
`other=1` and `SID=abc123; Path=/`. -/
theorem login_sid_cookie_retained_witness :
    login (mkClient "http://localhost:8080") (fun _ => none)
        ⟨200, "Ok.", ["other=1", "SID=abc123; Path=/"]⟩ =
      .ok { mkClient "http://localhost:8080" with authCookie := some "SID=abc123; Path=/" } ∧
    ("Cookie", "SID=abc123; Path=/") ∈
      mkHeaders { mkClient "http://localhost:8080" with authCookie := some "SID=abc123; Path=/" } :=
  have h := login_sid_cookie_retained (mkClient "http://localhost:8080") (fun _ => none)
    ⟨200, "Ok.", ["other=1", "SID=abc123; Path=/"]⟩ "SID=abc123; Path=/" (by decide) (by decide)
  ⟨h.1, h.2.1⟩

/-- C3 counterexample: `removeTorrentTags` joins the tag list with commas,
not pipes, so for tags `["a", "b"]` the `tags` field is `a,b`, not `a|b`. -/
theorem removeTorrentTags_pipe_join_counterexample :
    getEntry (removeTorrentTagsBody .all (some ["a", "b"])) "tags" = some "a,b" ∧
      getEntry (removeTorrentTagsBody .all (some ["a", "b"])) "tags" ≠
        some (String.intercalate "|" ["a", "b"]) := by
  decide

/-- C3 amended: for every tag list passed to `removeTorrentTags`, the
resulting `tags` form field is the comma-joined string of the tag elements. -/
theorem removeTorrentTags_comma_join (hashes : Hashes) (ts : List String) :
    getEntry (removeTorrentTagsBody hashes (some ts)) "tags" =
      some (String.intercalate "," ts) := by
  simp [removeTorrentTagsBody, setEntry, getEntry]

/-- C5: a client configured with base URL `http://localhost:8080/` holds the
normalized URL `http://localhost:8080/api/v2/`, and its `app`/`version`
dispatch is a GET to exactly `http://localhost:8080/api/v2/app/version` with
no query string and no body; omitting the trailing slash of the base URL
yields the identical request. -/
theorem app_version_request_exact :
    (mkClient "http://localhost:8080/").url = "http://localhost:8080/api/v2/" ∧
    getApplicationVersionRequest (mkClient "http://localhost:8080/") =
      { url := "http://localhost:8080/api/v2/app/version", method := .GET,
        headers := [("Referer", "http://localhost:8080")], body := none } ∧
    getApplicationVersionRequest (mkClient "http://localhost:8080") =
      getApplicationVersionRequest (mkClient "http://localhost:8080/") := by
  decide

/-- C6: for `deleteTorrents`, an explicit hash array yields the pipe-joined
`hashes` field preserving element order (so `["h1", "h2"]` yields the literal
`h1|h2`), while the sentinel `all` passes through verbatim; `pauseTorrents`
pipe-joins its hash array the same way. -/
theorem hashes_pipe_join_and_sentinel :
    (∀ hs df, getEntry (deleteTorrentsBody (.list hs) df) "hashes" =
        some (String.intercalate "|" hs)) ∧
    (∀ df, getEntry (deleteTorrentsBody .all df) "hashes" = some "all") ∧
    getEntry (deleteTorrentsBody (.list ["h1", "h2"]) false) "hashes" = some "h1|h2" ∧
    (∀ hs, getEntry (pauseTorrentsBody hs) "hashes" =
        some (String.intercalate "|" hs)) := by
  refine ⟨?_, ?_, by decide, ?_⟩ <;>
    intros <;> simp [deleteTorrentsBody, pauseTorrentsBody, getEntry, hashesStr]

/-- C8: a login response with a 2xx status none of whose set-cookie values
starts with `SID=` completes without error and leaves the credential unset. -/
theorem login_no_sid_cookie_silent (st : ClientState) (jp : String → Option Json)
    (resp : HttpResponse) (hok : responseOk resp.status = true)
    (hn : ∀ c ∈ resp.setCookies, jsStarts c "SID=" = false) :
    login st jp resp = .ok { st with authCookie := none } := by
  have hfind : resp.setCookies.find? (fun c => jsStarts c "SID=") = none := by
    rw [List.find?_eq_none]
    intro x hx
    simp [hn x hx]
  unfold login handleResponse
  simp only [hok, if_true]
  cases jp resp.text <;> simp [hfind]

/-- Witness for C8: a 200 login response whose only set-cookie is `foo=bar`. -/
theorem login_no_sid_cookie_silent_witness :
    login (mkClient "http://localhost:8080") (fun _ => none) ⟨200, "Fails.", ["foo=bar"]⟩ =
      .ok { mkClient "http://localhost:8080" with authCookie := none } :=
  login_no_sid_cookie_silent (mkClient "http://localhost:8080") (fun _ => none)
    ⟨200, "Fails.", ["foo=bar"]⟩ (by decide) (by decide)

/-- C9: whatever state `logout` runs in, the state it returns on success
holds the same credential as before: `logout` never clears `authCookie`. -/
theorem logout_preserves_authCookie (st : ClientState) (jp : String → Option Json)
    (resp : HttpResponse) (st' : ClientState) (h : logout st jp resp = .ok st') :
    st'.authCookie = st.authCookie := by
  unfold logout at h
  cases hh : handleResponse jp resp <;> rw [hh] at h <;> simp_all

/-- Witness for C9 at a fresh client and a 200 logout response. -/
theorem logout_preserves_authCookie_witness :
    logout (mkClient "http://localhost:8080") (fun _ => none) ⟨200, "", []⟩ =
      .ok (mkClient "http://localhost:8080") ∧
    (mkClient "http://localhost:8080").authCookie =
      (mkClient "http://localhost:8080").authCookie :=
  ⟨rfl, logout_preserves_authCookie (mkClient "http://localhost:8080") (fun _ => none)
    ⟨200, "", []⟩ (mkClient "http://localhost:8080") rfl⟩

/-- C10: whenever `setTorrentShareLimit` is called with a defined
`seedingTimeLimit`, its stringified value ends up in the `ratioLimit` form
field, overwriting any value set from `ratioLimit`, and no `seedingTimeLimit`
field is ever present in the body. -/
theorem seedingTimeLimit_overwrites_ratioLimit (hashes : Hashes)
    (rl : Option Int) (t : Int) :
    getEntry (setTorrentShareLimitBody hashes rl (some t)) "ratioLimit" =
      some (toString t) ∧
    getEntry (setTorrentShareLimitBody hashes rl (some t)) "seedingTimeLimit" =
      none := by
  cases rl <;> simp [setTorrentShareLimitBody, setEntry, getEntry]

/-- A torrent argument accepted by `addNewTorrent`
(`string | Blob | Stream | Buffer`); binary content is modelled as byte
lists, a stream as the list of chunks it emits. -/
inductive TorrentInput where
  | str (s : String)
  | blobArg (content : List Nat)
  | bufferArg (content : List Nat)
  | streamArg (chunks : List (List Nat))

/-- The URL/magnet scheme test `addNewTorrent` applies to string arguments:
`http://`, `https://`, `magnet:` and `bc://bt/` links are recognized. -/
def isTorrentUrl (s : String) : Bool :=
  jsStarts s "http://" || jsStarts s "https://" ||
    jsStarts s "magnet:" || jsStarts s "bc://bt/"

/-- The `urls` list collected by `addNewTorrent`: the string elements, kept
in order, filtered down to those with a recognized scheme. -/
def torrentUrls (torrents : List TorrentInput) : List String :=
  (torrents.filterMap (fun t =>
    match t with
    | .str s => some s
    | _ => none)).filter isTorrentUrl

/-- Multipart body built by `addNewTorrent`: the option fields are appended
first; then the `urls` field is set to the newline-joined recognized URLs;
then each torrent argument is visited in order — a string not among the
collected URLs is read from disk (`fsRead` models `fs.readFileSync`) and
appended as a blob under `torrents`, a blob is appended directly, a buffer
is wrapped as a blob, and a stream is drained into one blob from its chunks. -/
def addNewTorrentBody (fsRead : String → List Nat) (torrents : List TorrentInput)
    (options : List (String × String)) : List (String × FormPart) :=
  let body0 := options.map (fun kv => (kv.1, FormPart.text kv.2))
  let urls := torrentUrls torrents
  let body1 := setEntry body0 "urls" (FormPart.text (String.intercalate "\n" urls))
  body1 ++ torrents.flatMap (fun t =>
    match t with
    | .str s => if s ∈ urls then [] else [("torrents", FormPart.blob (fsRead s))]
    | .blobArg c => [("torrents", FormPart.blob c)]
    | .bufferArg c => [("torrents", FormPart.blob c)]
    | .streamArg chunks => [("torrents", FormPart.blob chunks.flatten)])

/-- The binary part a non-URL torrent argument contributes, as the claim
describes the partition: URL-scheme strings contribute nothing here, other
strings are read from disk, blob and buffer bytes are attached directly, and
stream chunks are concatenated into memory first. -/
def claimedFilePart (fsRead : String → List Nat) : TorrentInput → List (String × FormPart)
  | .str s => if isTorrentUrl s then [] else [("torrents", FormPart.blob (fsRead s))]
  | .blobArg c => [("torrents", FormPart.blob c)]
  | .bufferArg c => [("torrents", FormPart.blob c)]
  | .streamArg chunks => [("torrents", FormPart.blob chunks.flatten)]

/-- Helper: setting a key absent from a form appends the new entry at the
end. -/
theorem setEntry_append {α : Type} (ps : List (String × α)) (k : String) (v : α)
    (h : ∀ p ∈ ps, p.1 ≠ k) : setEntry ps k v = ps ++ [(k, v)] := by
  induction ps with
  | nil => rfl
  | cons p rest ih =>
    have hp : p.1 ≠ k := h p (by simp)
    simp only [setEntry, hp, if_false]
    rw [ih (fun q hq => h q (by simp [hq]))]
    rfl

/-- Helper: `flatMap` only depends on the function's values on the list's
members. -/
theorem flatMap_congr_of_mem {α β : Type} (l : List α) (f g : α → List β)
    (h : ∀ a ∈ l, f a = g a) : l.flatMap f = l.flatMap g := by
  induction l with
  | nil => rfl
  | cons a t ih =>
    simp only [List.flatMap_cons]
    rw [h a (by simp), ih (fun x hx => h x (by simp [hx]))]

/-- Helper: a string element of the torrent list lies in the collected URL
list exactly when it carries a recognized URL scheme. -/
theorem mem_torrentUrls_iff (torrents : List TorrentInput) (s : String)
    (hs : TorrentInput.str s ∈ torrents) :
    s ∈ torrentUrls torrents ↔ isTorrentUrl s = true := by
  constructor
  · intro h
    exact (List.mem_filter.mp h).2
  · intro h
    refine List.mem_filter.mpr ⟨?_, h⟩
    exact List.mem_filterMap.mpr ⟨TorrentInput.str s, hs, rfl⟩

/-- C7: when the caller's options do not themselves use the `urls` key (the
documented option names never do), `addNewTorrent` builds exactly the option
fields, followed by one `urls` field holding the newline-joined
URL/magnet-scheme strings in order, followed by one `torrents` blob part per
remaining element in order: non-URL strings read from disk, blob and buffer
bytes attached directly, stream chunks drained and concatenated. -/
theorem addNewTorrent_partitions (fsRead : String → List Nat)
    (torrents : List TorrentInput) (options : List (String × String))
    (h : "urls" ∉ options.map Prod.fst) :
    addNewTorrentBody fsRead torrents options =
      options.map (fun kv => (kv.1, FormPart.text kv.2)) ++
        [("urls", FormPart.text (String.intercalate "\n" (torrentUrls torrents)))] ++
        torrents.flatMap (claimedFilePart fsRead) := by
  simp only [addNewTorrentBody]
  have hkeys : ∀ p ∈ options.map (fun kv => (kv.1, FormPart.text kv.2)), p.1 ≠ "urls" := by
    intro p hp
    obtain ⟨kv, hkv, rfl⟩ := List.mem_map.mp hp
    intro hk
    exact h (List.mem_map.mpr ⟨kv, hkv, hk⟩)
  rw [setEntry_append _ _ _ hkeys]
  congr 1
  apply flatMap_congr_of_mem
  intro t ht
  cases t with
  | str s =>
    have hiff := mem_torrentUrls_iff torrents s ht
    by_cases hu : isTorrentUrl s = true
    · simp [claimedFilePart, hu, hiff.mpr hu]
    · have hnot : s ∉ torrentUrls torrents := fun hmem => hu (hiff.mp hmem)
      simp [claimedFilePart, hu, hnot]
  | blobArg c => rfl
  | bufferArg c => rfl
  | streamArg chunks => rfl

/-- Witness for C7 at a mixed argument list: one URL string, one local path
string, one buffer and one stream, with one named option. -/
theorem addNewTorrent_partitions_witness :
    addNewTorrentBody (fun _ => [7, 7])
        [.str "http://a", .str "/tmp/x.torrent", .bufferArg [1, 2], .streamArg [[3], [4]]]
        [("category", "tv")] =
      [("category", FormPart.text "tv")] ++
        [("urls", FormPart.text (String.intercalate "\n"
          (torrentUrls [.str "http://a", .str "/tmp/x.torrent",
            .bufferArg [1, 2], .streamArg [[3], [4]]])))] ++
        ([.str "http://a", .str "/tmp/x.torrent", .bufferArg [1, 2],
          .streamArg [[3], [4]]] : List TorrentInput).flatMap
          (claimedFilePart (fun _ => [7, 7])) :=
  addNewTorrent_partitions (fun _ => [7, 7]) _ _ (by decide)
